import Mathlib

set_option maxRecDepth 100000

/-!
Verification of the Kindle-highlights parser (src/highlights_parser.py).

Python strings are modelled as Lean String values; all indexing is by
characters (Python indexes strings by code points, Lean chars are unicode
scalar values, so the correspondence is exact on the inputs considered).
Python string primitives used by the source are modelled by the pyXxx
helpers below.
-/

/-- Models Python str.split with a non-empty separator on character lists:
the text is scanned left to right and cut at every non-overlapping
occurrence of the separator.  Each recursive step consumes at least one
character, so the fuel argument, set to the length of the text by
pySplitCore, always suffices; the fuel-exhausted branch is unreachable.
(Python str.split with an empty separator raises; the source only splits
on the newline, pipe and ten-equals separators, all non-empty, and for
an empty separator this function returns the input whole.) -/
def pySplitFuel (sep : List Char) : Nat → List Char → List (List Char)
  | _, [] => [[]]
  | 0, l => [l]
  | Nat.succ fuel, c :: rest =>
    if sep ≠ [] ∧ sep.isPrefixOf (c :: rest) then
      [] :: pySplitFuel sep fuel ((c :: rest).drop sep.length)
    else
      match pySplitFuel sep fuel rest with
      | [] => [[c]]
      | m :: ms => (c :: m) :: ms

/-- The character-list split with the fuel instantiated. -/
def pySplitCore (sep l : List Char) : List (List Char) :=
  pySplitFuel sep l.length l

/-- Models Python str.split(sep) at the String level. -/
def pySplit (s sep : String) : List String :=
  (pySplitCore sep.toList s.toList).map String.mk

/-- Models Python str.find(sub): index (in characters) of the leftmost
occurrence of sub, scanning from offset i. -/
def findSubAux (sub : List Char) : List Char → Nat → Option Nat
  | [], i => if sub.isEmpty then some i else none
  | c :: rest, i =>
    if sub.isPrefixOf (c :: rest) then some i
    else findSubAux sub rest (i + 1)

/-- Models Python str.find(sub): the index of the leftmost occurrence of
sub in s, or -1 if sub does not occur. -/
def pyFind (s sub : String) : Int :=
  match findSubAux sub.toList s.toList 0 with
  | some i => (i : Int)
  | none => -1

/-- Python str.strip() whitespace: space, tab, newline, carriage return,
vertical tab, form feed. -/
def isPyWhitespace (c : Char) : Bool :=
  c == ' ' || c == '\t' || c == '\n' || c == '\r' ||
    c == Char.ofNat 11 || c == Char.ofNat 12

/-- Models Python str.strip(): drop leading and trailing whitespace. -/
def pyStrip (s : String) : String :=
  String.mk (((s.toList.dropWhile isPyWhitespace).reverse.dropWhile
    isPyWhitespace).reverse)

/-- Models the Python slice s[n:] (by characters). -/
def pyDrop (s : String) (n : Nat) : String :=
  String.mk (s.toList.drop n)

/-- Models the Python slice s[:n] (by characters). -/
def pyTake (s : String) (n : Nat) : String :=
  String.mk (s.toList.take n)

/-- Models the Python slice s[n:-1] (by characters): drop the first n
characters and the last character; empty when n reaches past the
next-to-last character, exactly as in Python. -/
def pySliceToPenult (s : String) (n : Nat) : String :=
  String.mk ((s.toList.drop n).dropLast)

/-- Models re.search(r"\((.*?)\)", s) on the character list of s, with i
the index of the first listed character inside s: scanning left to right,
the match starts at the first opening parenthesis that is followed by a
closing parenthesis with no intervening newline (the dot of the lazy
group does not match a newline), and the group is the text up to the
first such closing parenthesis.  Returns (match.start, match.group(1)). -/
def takeUntilClose : List Char → Option (List Char)
  | [] => none
  | c :: rest =>
    if c = ')' then some []
    else if c = '\n' then none
    else (takeUntilClose rest).map (fun l => c :: l)

/-- The scan underlying the regex search: see takeUntilClose. -/
def reSearchParen : List Char → Nat → Option (Nat × List Char)
  | [], _ => none
  | c :: rest, i =>
    if c = '(' then
      match takeUntilClose rest with
      | some inner => some (i, inner)
      | none => reSearchParen rest (i + 1)
    else reSearchParen rest (i + 1)

/-- HIGHLIGHT_SEPARATOR from src/highlights_parser.py line 13: the
ten-equals token that data.split is called with. -/
def HIGHLIGHT_SEPARATOR : String := "=========="

/-- Models the first line of Highlight.parse_single_highlight:
split_string = list(filter(None, highlight_string.split("\n"))).
Python's filter(None, ...) keeps the truthy elements, and a string is
truthy exactly when it is non-empty. -/
def nonEmptyLines (s : String) : List String :=
  (pySplit s "\n").filter (fun l => l != "")

/-- Embeds Highlight.parse_single_highlight (src/highlights_parser.py
lines 52-79).  The returned tuple is, in the order of the source's
return statement: (title, author, content, page, date).
Line by line:
  split_string = list(filter(None, highlight_string.split("\n")))
  if len(split_string) != 3: return "", "", "", "", ""
  author_line = split_string[0]; content = split_string[-1]
  details = split_string[-2].split("|")
  match = re.search(r"\((.*?)\)", author_line)
  if not match: return "", "", "", "", ""
  author = match.group(1); title = author_line[: match.start()]
  date = details[-1][10:]
  page_idx = details[0].strip().find("page")
  page = "P" + details[0][page_idx + 1 : -1]
(page_idx is at least -1, so page_idx + 1 is a non-negative slice start,
modelled by Int.toNat; the negative indices -1 and -2 into the
three-element split_string select the last and the next-to-last
element). -/
def parse_single_highlight (highlight_string : String) :
    String × String × String × String × String :=
  let split_string := nonEmptyLines highlight_string
  if split_string.length ≠ 3 then ("", "", "", "", "")
  else
    let author_line := split_string.headD ""
    let content := split_string.getLastD ""
    let details := pySplit (split_string.getD (split_string.length - 2) "") "|"
    match reSearchParen author_line.toList 0 with
    | none => ("", "", "", "", "")
    | some (start, group) =>
      let author := String.mk group
      let title := pyTake author_line start
      let date := pyDrop (details.getLastD "") 10
      let page_idx := pyFind (pyStrip (details.headD "")) "page"
      let page := "P" ++ pySliceToPenult (details.headD "") (page_idx + 1).toNat
      (title, author, content, page, date)

/-- EntryRecord: the Highlight object's five string attributes, in the
order they are declared in Highlight.__init__. -/
structure Highlight where
  title : String
  author : String
  content : String
  date : String
  page : String
deriving DecidableEq

/-- Embeds the Highlight constructor (src/highlights_parser.py lines
21-28): __init__ destructures the tuple returned by
parse_single_highlight into the attribute order (title, author, content,
date, page), while the return statement of parse_single_highlight
produces (title, author, content, page, date); the attribute named date
therefore receives the page token and the attribute named page the date
token, exactly as in the source. -/
def Highlight.ofRaw (raw_string : String) : Highlight :=
  match parse_single_highlight raw_string with
  | (t1, t2, t3, t4, t5) => ⟨t1, t2, t3, t4, t5⟩

/-- The three members of the Formatting enum. -/
inductive Formatting where
  | BULLET
  | QUOTE
  | PARAGRAPH
deriving DecidableEq

/-- Embeds Formatting.format_highlight (src/highlights_parser.py lines
99-132).  The ValueError branch of the source's match is unreachable for
the three enum members, which are the only inhabitants of the type. -/
def Formatting.format_highlight (self : Formatting) (highlight : Highlight)
    (add_date : Bool) (add_page : Bool) : String :=
  let formatted_text := highlight.content.replace "\n" " "
  let formatted_text :=
    match self with
    | Formatting.QUOTE => "- " ++ formatted_text
    | Formatting.BULLET => "> " ++ formatted_text
    | Formatting.PARAGRAPH => formatted_text
  let formatted_text :=
    if add_date && add_page then
      formatted_text ++ " (Added on " ++ highlight.date ++ ", " ++
        highlight.page ++ ")"
    else if add_date && !add_page then
      formatted_text ++ " (Added on " ++ highlight.date ++ ")"
    else if !add_date && add_page then
      formatted_text ++ " (" ++ highlight.page ++ ")"
    else formatted_text
  formatted_text ++ "\n"

/-- The Library: Parser.books, a Python dict keyed by (author, title)
holding lists of Highlight objects, modelled as an insertion-ordered
association list (Python dicts preserve insertion order). -/
abbrev Library := List ((String × String) × List Highlight)

/-- Reading the Library: the list held under a key, or the empty list
when the key is absent. -/
def lookupList (key : String × String) : Library → List Highlight
  | [] => []
  | (k, hs) :: rest => if k = key then hs else lookupList key rest

/-- Models self.books[key].append(h) on the defaultdict(list): appends to
the existing key's list, or adds the key at the end (Python dicts append
newly created keys in insertion order). -/
def addBook (books : Library) (key : String × String) (h : Highlight) :
    Library :=
  match books with
  | [] => [(key, [h])]
  | (k, hs) :: rest =>
    if k = key then (k, hs ++ [h]) :: rest
    else (k, hs) :: addBook rest key h

/-- Embeds the body of the loop in Parser.parse_highlights (lines
150-153): h = Highlight(raw_string); if h.title and h.author:
self.books[(h.author, h.title)].append(h).  Python truthiness of a
string is non-emptiness. -/
def addHighlight (books : Library) (raw_string : String) : Library :=
  let h := Highlight.ofRaw raw_string
  if h.title != "" && h.author != "" then addBook books (h.author, h.title) h
  else books

/-- Embeds Parser.parse_highlights (lines 141-153) on the already-read
file contents: highlights = data.split(HIGHLIGHT_SEPARATOR), then the
aggregation loop over the chunks, starting from the empty books dict. -/
def parse_highlights (data : String) : Library :=
  (pySplit data HIGHLIGHT_SEPARATOR).foldl addHighlight []

-- Spec-side definitions, used to state the claims.

/-- The aggregation key the source uses for a record: (author, title). -/
def keyOf (h : Highlight) : String × String := (h.author, h.title)

/-- The aggregation gate of the source: title and author non-empty. -/
def validb (h : Highlight) : Bool := h.title != "" && h.author != ""

/-- The parsed records of all chunks of the input, in input order,
restricted to those that pass the aggregation gate. -/
def validRecords (data : String) : List Highlight :=
  ((pySplit data HIGHLIGHT_SEPARATOR).map Highlight.ofRaw).filter validb

/-- The keys of a list in first-seen order: each key listed at the
position of its first occurrence. -/
def firstSeenKeys : List (String × String) → List (String × String)
  | [] => []
  | k :: ks => k :: (firstSeenKeys ks).filter (fun x => decide (x ≠ k))

/-- Modelled from the spec (section 4.3): the style prefix table. -/
def stylePrefix : Formatting → String
  | Formatting.BULLET => "> "
  | Formatting.QUOTE => "- "
  | Formatting.PARAGRAPH => ""

/-- Modelled from the spec (section 4.3): the suffix chosen by the two
inclusion flags, written with the record's date and page attributes as
the renderer reads them. -/
def flagSuffix (h : Highlight) (add_date add_page : Bool) : String :=
  if add_date && add_page then " (Added on " ++ h.date ++ ", " ++ h.page ++ ")"
  else if add_date then " (Added on " ++ h.date ++ ")"
  else if add_page then " (" ++ h.page ++ ")"
  else ""

-- Helper lemmas about the parsing stage.

theorem parse_eq_empty_of_length_ne_three (s : String)
    (h : (nonEmptyLines s).length ≠ 3) :
    parse_single_highlight s = ("", "", "", "", "") := by
  simp only [parse_single_highlight]
  rw [if_pos h]

theorem parse_eq_of_lines (s a d c : String) (hl : nonEmptyLines s = [a, d, c]) :
    parse_single_highlight s =
      match reSearchParen a.toList 0 with
      | none => ("", "", "", "", "")
      | some (start, group) =>
          (pyTake a start, String.mk group, c,
            "P" ++ pySliceToPenult ((pySplit d "|").headD "")
              ((pyFind (pyStrip ((pySplit d "|").headD "")) "page" + 1).toNat),
            pyDrop ((pySplit d "|").getLastD "") 10) := by
  simp [parse_single_highlight, hl]

theorem takeUntilClose_append (b c : List Char) (hb : ')' ∉ b) (hn : '\n' ∉ b) :
    takeUntilClose (b ++ ')' :: c) = some b := by
  induction b with
  | nil => simp [takeUntilClose]
  | cons x xs ih =>
    simp only [List.mem_cons, not_or] at hb hn
    simp [takeUntilClose, Ne.symm hb.1, Ne.symm hn.1, ih hb.2 hn.2]

theorem reSearchParen_append (a b c : List Char) (i : Nat)
    (ha : '(' ∉ a) (hb : ')' ∉ b) (hn : '\n' ∉ b) :
    reSearchParen (a ++ '(' :: b ++ ')' :: c) i = some (i + a.length, b) := by
  induction a generalizing i with
  | nil => simp [reSearchParen, takeUntilClose_append b c hb hn]
  | cons x xs ih =>
    simp only [List.mem_cons, not_or] at ha
    have hstep : reSearchParen (x :: (xs ++ '(' :: b ++ ')' :: c)) i
        = reSearchParen (xs ++ '(' :: b ++ ')' :: c) (i + 1) := by
      simp [reSearchParen, Ne.symm ha.1]
    have harith : i + 1 + xs.length = i + (x :: xs).length := by
      simp only [List.length_cons]
      omega
    rw [List.cons_append, List.cons_append, hstep, ih (i + 1) ha.2, harith]

-- Helper lemmas about the aggregation stage.

theorem addHighlight_eq (books : Library) (r : String) :
    addHighlight books r =
      if validb (Highlight.ofRaw r) then
        addBook books (keyOf (Highlight.ofRaw r)) (Highlight.ofRaw r)
      else books := rfl

theorem lookupList_addBook_self (books : Library) (key : String × String)
    (h : Highlight) :
    lookupList key (addBook books key h) = lookupList key books ++ [h] := by
  induction books with
  | nil => simp [addBook, lookupList]
  | cons p rest ih =>
    obtain ⟨k, hs⟩ := p
    by_cases hk : k = key
    · subst hk
      simp [addBook, lookupList]
    · simp [addBook, lookupList, hk, ih]

theorem lookupList_addBook_ne (books : Library) (key key2 : String × String)
    (h : Highlight) (hne : key2 ≠ key) :
    lookupList key2 (addBook books key h) = lookupList key2 books := by
  induction books with
  | nil => simp [addBook, lookupList, Ne.symm hne]
  | cons p rest ih =>
    obtain ⟨k, hs⟩ := p
    by_cases hk : k = key
    · subst hk
      simp [addBook, lookupList, Ne.symm hne]
    · by_cases hk2 : k = key2
      · subst hk2
        simp [addBook, lookupList, hk]
      · simp [addBook, lookupList, hk, hk2, ih]

theorem map_fst_addBook_mem (books : Library) (key : String × String)
    (h : Highlight) (hmem : key ∈ books.map Prod.fst) :
    (addBook books key h).map Prod.fst = books.map Prod.fst := by
  induction books with
  | nil => simp at hmem
  | cons p rest ih =>
    obtain ⟨k, hs⟩ := p
    by_cases hk : k = key
    · subst hk
      simp [addBook]
    · simp only [List.map_cons, List.mem_cons] at hmem
      rcases hmem with hmem | hmem
      · exact absurd hmem.symm hk
      · simp [addBook, hk, ih hmem]

theorem addBook_notMem (books : Library) (key : String × String)
    (h : Highlight) (hnot : key ∉ books.map Prod.fst) :
    addBook books key h = books ++ [(key, [h])] := by
  induction books with
  | nil => simp [addBook]
  | cons p rest ih =>
    obtain ⟨k, hs⟩ := p
    simp only [List.map_cons, List.mem_cons, not_or] at hnot
    simp [addBook, Ne.symm hnot.1, ih hnot.2]

theorem lookupList_foldl (raws : List String) (books : Library)
    (key : String × String) :
    lookupList key (raws.foldl addHighlight books)
      = lookupList key books
        ++ ((raws.map Highlight.ofRaw).filter validb).filter
            (fun h => decide (keyOf h = key)) := by
  induction raws generalizing books with
  | nil => simp
  | cons r rs ih =>
    simp only [List.foldl_cons, List.map_cons, List.filter_cons]
    rw [ih]
    by_cases hv : validb (Highlight.ofRaw r)
    · by_cases hk : keyOf (Highlight.ofRaw r) = key
      · rw [addHighlight_eq, if_pos hv, hk, lookupList_addBook_self]
        simp [hv, hk]
      · rw [addHighlight_eq, if_pos hv,
          lookupList_addBook_ne _ _ _ _ (Ne.symm hk)]
        simp [hv, hk]
    · rw [addHighlight_eq, if_neg hv]
      simp [hv]

theorem map_fst_foldl (raws : List String) (books : Library) :
    (raws.foldl addHighlight books).map Prod.fst
      = books.map Prod.fst
        ++ (firstSeenKeys (((raws.map Highlight.ofRaw).filter validb).map
              keyOf)).filter
            (fun k => decide (k ∉ books.map Prod.fst)) := by
  induction raws generalizing books with
  | nil => simp [firstSeenKeys]
  | cons r rs ih =>
    simp only [List.foldl_cons, List.map_cons, List.filter_cons]
    rw [ih]
    by_cases hv : validb (Highlight.ofRaw r)
    · simp only [hv, if_true, List.map_cons, firstSeenKeys]
      by_cases hmem : keyOf (Highlight.ofRaw r) ∈ books.map Prod.fst
      · rw [addHighlight_eq, if_pos hv, map_fst_addBook_mem _ _ _ hmem]
        simp only [List.filter_cons]
        simp [hmem]
        apply List.filter_congr
        intro x hx
        by_cases hxk : x = keyOf (Highlight.ofRaw r)
        · simp [hxk, hmem]
        · simp [hxk]
      · rw [addHighlight_eq, if_pos hv, addBook_notMem _ _ _ hmem,
          List.map_append]
        simp [hmem]
        apply List.filter_congr
        intro x hx
        by_cases hxk : x = keyOf (Highlight.ofRaw r)
        · simp [hxk, List.mem_append]
        · simp [hxk, List.mem_append]
    · rw [addHighlight_eq, if_neg hv]
      simp [hv]

-- Helper lemmas about the splitting stage.

theorem pySplitFuel_succ (sep : List Char) (fuel : Nat) (c : Char)
    (rest : List Char) :
    pySplitFuel sep (fuel + 1) (c :: rest) =
      if sep ≠ [] ∧ sep.isPrefixOf (c :: rest) then
        [] :: pySplitFuel sep fuel ((c :: rest).drop sep.length)
      else
        match pySplitFuel sep fuel rest with
        | [] => [[c]]
        | m :: ms => (c :: m) :: ms := rfl

theorem pySplitFuel_irrel (sep : List Char) :
    ∀ fuel fuel2 l, l.length ≤ fuel → l.length ≤ fuel2 →
      pySplitFuel sep fuel l = pySplitFuel sep fuel2 l := by
  intro fuel
  induction fuel with
  | zero =>
    intro fuel2 l h1 h2
    have hl : l = [] := List.eq_nil_of_length_eq_zero (Nat.le_zero.mp h1)
    subst hl
    cases fuel2 <;> rfl
  | succ fuel ih =>
    intro fuel2 l h1 h2
    cases l with
    | nil => cases fuel2 <;> rfl
    | cons c rest =>
      cases fuel2 with
      | zero => simp at h2
      | succ fuel2 =>
        rw [pySplitFuel_succ, pySplitFuel_succ]
        by_cases hp : sep ≠ [] ∧ sep.isPrefixOf (c :: rest)
        · rw [if_pos hp, if_pos hp]
          have hsl : 0 < sep.length := List.length_pos.mpr hp.1
          simp only [List.length_cons] at h1 h2
          have hlen : ((c :: rest).drop sep.length).length ≤ fuel := by
            simp only [List.length_drop, List.length_cons]
            omega
          have hlen2 : ((c :: rest).drop sep.length).length ≤ fuel2 := by
            simp only [List.length_drop, List.length_cons]
            omega
          rw [ih fuel2 _ hlen hlen2]
        · rw [if_neg hp, if_neg hp]
          simp only [List.length_cons] at h1 h2
          have hr : rest.length ≤ fuel := by omega
          have hr2 : rest.length ≤ fuel2 := by omega
          rw [ih fuel2 rest hr hr2]

theorem pySplitCore_cons_notPrefix (sep : List Char) (c : Char)
    (rest : List Char) (h : ¬ (sep ≠ [] ∧ sep.isPrefixOf (c :: rest))) :
    pySplitCore sep (c :: rest) =
      match pySplitCore sep rest with
      | [] => [[c]]
      | m :: ms => (c :: m) :: ms := by
  unfold pySplitCore
  rw [show (c :: rest).length = rest.length + 1 from rfl, pySplitFuel_succ,
    if_neg h]

theorem pySplitCore_prefix (sep : List Char) (c : Char) (rest : List Char)
    (hsep : sep ≠ []) (hp : sep.isPrefixOf (c :: rest)) :
    pySplitCore sep (c :: rest) =
      [] :: pySplitCore sep ((c :: rest).drop sep.length) := by
  unfold pySplitCore
  rw [show (c :: rest).length = rest.length + 1 from rfl, pySplitFuel_succ,
    if_pos ⟨hsep, hp⟩]
  have hsl : 0 < sep.length := List.length_pos.mpr hsep
  have hlen : ((c :: rest).drop sep.length).length ≤ rest.length := by
    simp only [List.length_drop, List.length_cons]
    omega
  rw [pySplitFuel_irrel sep rest.length ((c :: rest).drop sep.length).length _
    hlen (le_refl _)]

theorem pySplitCore_sep_append (sep b : List Char) (hsep : sep ≠ []) :
    pySplitCore sep (sep ++ b) = [] :: pySplitCore sep b := by
  cases sep with
  | nil => exact absurd rfl hsep
  | cons s0 stail =>
    have hp : (s0 :: stail).isPrefixOf (s0 :: (stail ++ b)) := by
      rw [show s0 :: (stail ++ b) = (s0 :: stail) ++ b from rfl]
      exact List.isPrefixOf_iff_prefix.mpr (List.prefix_append _ _)
    rw [show (s0 :: stail) ++ b = s0 :: (stail ++ b) from rfl,
      pySplitCore_prefix _ _ _ hsep hp]
    congr 1
    rw [show s0 :: (stail ++ b) = (s0 :: stail) ++ b from rfl,
      List.drop_left]

theorem findSubAux_cons (sub : List Char) (c : Char) (rest : List Char)
    (i : Nat) :
    findSubAux sub (c :: rest) i =
      if sub.isPrefixOf (c :: rest) then some i
      else findSubAux sub rest (i + 1) := rfl

theorem findSubAux_shift (sub l : List Char) :
    ∀ i, findSubAux sub l (i + 1) = (findSubAux sub l i).map (fun n => n + 1) := by
  induction l with
  | nil =>
    intro i
    by_cases h : sub.isEmpty <;> simp [findSubAux, h]
  | cons c rest ih =>
    intro i
    by_cases h : sub.isPrefixOf (c :: rest)
    · simp [findSubAux_cons, h]
    · simp [findSubAux_cons, h, ih]

theorem pySplitCore_append (sep a b : List Char) (hsep : sep ≠ [])
    (hfind : findSubAux sep (a ++ sep ++ b) 0 = some a.length) :
    pySplitCore sep (a ++ sep ++ b) = a :: pySplitCore sep b := by
  induction a with
  | nil =>
    simp only [List.nil_append]
    exact pySplitCore_sep_append sep b hsep
  | cons c a0 ih =>
    have hshape : (c :: a0) ++ sep ++ b = c :: (a0 ++ sep ++ b) := by
      simp [List.cons_append]
    rw [hshape] at hfind
    have hnp : ¬ sep.isPrefixOf (c :: (a0 ++ sep ++ b)) := by
      intro hp
      rw [findSubAux_cons, if_pos hp] at hfind
      simp only [Option.some.injEq, List.length_cons] at hfind
      omega
    rw [findSubAux_cons, if_neg hnp, findSubAux_shift] at hfind
    have hfind0 : findSubAux sep (a0 ++ sep ++ b) 0 = some a0.length := by
      cases hcase : findSubAux sep (a0 ++ sep ++ b) 0 with
      | none => rw [hcase] at hfind; simp at hfind
      | some n =>
        rw [hcase] at hfind
        simp only [Option.map_some', Option.some.injEq, List.length_cons]
          at hfind
        exact congrArg some (by omega)
    rw [hshape, pySplitCore_cons_notPrefix sep c _ (fun hcon => hnp hcon.2),
      ih hfind0]

theorem string_toList_append (s t : String) :
    (s ++ t).toList = s.toList ++ t.toList := rfl

theorem string_mk_toList (s : String) : String.mk s.toList = s := rfl

theorem pySplit_append (sep a b : String) (hsep : sep.toList ≠ [])
    (hfind : pyFind (a ++ sep ++ b) sep = (a.length : Int)) :
    pySplit (a ++ sep ++ b) sep = a :: pySplit b sep := by
  have hfind2 : findSubAux sep.toList (a ++ sep ++ b).toList 0
      = some a.length := by
    unfold pyFind at hfind
    cases hcase : findSubAux sep.toList (a ++ sep ++ b).toList 0 with
    | none =>
      rw [hcase] at hfind
      simp at hfind
    | some n =>
      rw [hcase] at hfind
      simp only at hfind
      exact congrArg some (by exact_mod_cast hfind)
  rw [string_toList_append, string_toList_append] at hfind2
  unfold pySplit
  rw [string_toList_append, string_toList_append,
    pySplitCore_append sep.toList a.toList b.toList hsep hfind2]
  simp [string_mk_toList]

theorem pyDrop_eq_empty (s : String) (n : Nat) (h : s.length ≤ n) :
    pyDrop s n = "" := by
  have h2 : s.toList.length ≤ n := h
  unfold pyDrop
  rw [List.drop_eq_nil_of_le h2]

-- Helper lemmas about string concatenation.

theorem string_append_assoc (x y z : String) : x ++ y ++ z = x ++ (y ++ z) := by
  apply String.ext
  show (x ++ y ++ z).data = (x ++ (y ++ z)).data
  simp [String.data_append, List.append_assoc]

theorem string_empty_append (s : String) : "" ++ s = s := rfl

theorem string_append_empty (s : String) : s ++ "" = s := by
  apply String.ext
  show (s ++ "").data = s.data
  simp [String.data_append]

-- The claims.

/-- C1, corrected, counterexample: on the spec's concrete three-line
chunk, parse does not return the record claimed there (the code keeps
the space before the parenthesis in the title, and its location token is
"Page 12", assembled from the letter P and the slice that starts right
after the letter p of "page", not "P12"). -/
theorem C1_counterexample :
    parse_single_highlight
        "Sample Book (Jane Doe)\n- Your Highlight on page 12 | Added on Monday, May 1, 2023 10:00:00 AM\nThis is the highlighted text."
      ≠ ("Sample Book", "Jane Doe", "This is the highlighted text.",
          "P12", "Monday, May 1, 2023 10:00:00 AM") := by
  decide

/-- C1, amended: on the spec's concrete three-line chunk, parse returns
title "Sample Book " (the text before the parenthesis, untrimmed, with
its trailing space), author "Jane Doe", passage "This is the highlighted
text.", location "Page 12" (the prefix "P" plus the first pipe-segment
from just after the p of "page" up to but excluding the segment's last
character) and timestamp "Monday, May 1, 2023 10:00:00 AM" (the last
pipe-segment with its first ten characters stripped). -/
theorem C1_sample_parse :
    parse_single_highlight
        "Sample Book (Jane Doe)\n- Your Highlight on page 12 | Added on Monday, May 1, 2023 10:00:00 AM\nThis is the highlighted text."
      = ("Sample Book ", "Jane Doe", "This is the highlighted text.",
          "Page 12", "Monday, May 1, 2023 10:00:00 AM") := by
  decide

/-- C2, corrected, counterexample: on a header line with two
parenthesized groups, parse takes the FIRST group "Great" as the author,
not the last group "Jane Doe" as the claim states. -/
theorem C2_counterexample :
    (parse_single_highlight "My (Great) Book (Jane Doe)\nm|d\ntext").2.1
      ≠ "Jane Doe" := by
  decide

/-- C2, amended: for every chunk with exactly three non-empty lines
whose header decomposes as a ++ "(" ++ b ++ ")" ++ c with no "(" in a
and no ")" or newline in b — that is, the FIRST parenthesized group of
the header is "(" ++ b ++ ")" — parse takes b (the leftmost group,
closed at the first following ")") as the author and the text a before
it as the title, regardless of any further parenthesized groups in c. -/
theorem C2_first_group_is_author (s header details_line content : String)
    (a b c : List Char)
    (hl : nonEmptyLines s = [header, details_line, content])
    (hh : header.toList = a ++ '(' :: b ++ ')' :: c)
    (ha : '(' ∉ a) (hb : ')' ∉ b) (hn : '\n' ∉ b) :
    (parse_single_highlight s).1 = String.mk a
      ∧ (parse_single_highlight s).2.1 = String.mk b := by
  rw [parse_eq_of_lines s header details_line content hl, hh,
    reSearchParen_append a b c 0 ha hb hn]
  constructor
  · show pyTake header (0 + a.length) = String.mk a
    unfold pyTake
    rw [hh]
    simp [List.append_assoc, List.take_left]
  · rfl

/-- C2, witness: the amended theorem applied to the two-group header
"My (Great) Book (Jane Doe)": the author is the first group "Great" and
the title is the text "My " before it. -/
theorem C2_first_group_is_author_witness :
    (parse_single_highlight "My (Great) Book (Jane Doe)\nm|d\ntext").1 = "My "
      ∧ (parse_single_highlight "My (Great) Book (Jane Doe)\nm|d\ntext").2.1
        = "Great" :=
  C2_first_group_is_author "My (Great) Book (Jane Doe)\nm|d\ntext"
    "My (Great) Book (Jane Doe)" "m|d" "text"
    "My ".toList "Great".toList " Book (Jane Doe)".toList
    (by decide) (by decide) (by decide) (by decide) (by decide)

/-- C3, corrected, counterexample: a chunk whose first pipe-segment
lacks the substring "page" is NOT turned into the all-empty invalid
record: parse returns a fully populated record whose location is built
from the not-found sentinel index -1 (giving "P" plus the segment
without its last character). -/
theorem C3_counterexample :
    parse_single_highlight "T (A)\nfoo bar | Added on Something Long\ntext"
        = ("T ", "A", "text", "Pfoo bar", "Something Long")
      ∧ parse_single_highlight "T (A)\nfoo bar | Added on Something Long\ntext"
        ≠ ("", "", "", "", "") := by
  decide

/-- C3, amended: parse is a total function (the embedding shows every
operation it performs is total, so it never raises), and the two
structural anomalies it detects — a non-empty-line count different from
3, or a header without a parenthesized group — yield the all-empty
record; a first pipe-segment lacking "page" is not such an anomaly and
does not yield the all-empty record. -/
theorem C3_structural_anomalies (s : String)
    (h : (nonEmptyLines s).length ≠ 3
        ∨ ∃ a d c, nonEmptyLines s = [a, d, c]
            ∧ reSearchParen a.toList 0 = none) :
    parse_single_highlight s = ("", "", "", "", "") := by
  rcases h with h | ⟨a, d, c, hl, hm⟩
  · exact parse_eq_empty_of_length_ne_three s h
  · rw [parse_eq_of_lines s a d c hl, hm]

/-- C3, witness: the amended theorem applied to a one-line chunk. -/
theorem C3_structural_anomalies_witness :
    parse_single_highlight "not a highlight" = ("", "", "", "", "") :=
  C3_structural_anomalies "not a highlight" (Or.inl (by decide))

/-- C4, corrected, counterexample: a chunk whose header starts with the
parenthesized group yields a PARTIAL record — empty title but non-empty
author, passage and location — which is neither fully populated (title
and author non-empty) nor fully empty, contradicting the claimed
dichotomy. -/
theorem C4_counterexample :
    parse_single_highlight "(Jane Doe)\nx|y\ntext"
        = ("", "Jane Doe", "text", "P", "")
      ∧ ¬(((parse_single_highlight "(Jane Doe)\nx|y\ntext").1 ≠ ""
            ∧ (parse_single_highlight "(Jane Doe)\nx|y\ntext").2.1 ≠ "")
          ∨ parse_single_highlight "(Jane Doe)\nx|y\ntext"
            = ("", "", "", "", "")) := by
  decide

/-- C4, amended: parse can return partial records (for example an empty
title with a non-empty author), but the aggregation gate holds: every
record stored in the Library under any key has a non-empty title and a
non-empty author, so no invalid record is ever aggregated. -/
theorem C4_no_invalid_aggregated (data : String) (key : String × String)
    (h : Highlight) (hmem : h ∈ lookupList key (parse_highlights data)) :
    h.title ≠ "" ∧ h.author ≠ "" := by
  unfold parse_highlights at hmem
  rw [lookupList_foldl] at hmem
  simp only [lookupList, List.nil_append] at hmem
  have h1 : h ∈ ((pySplit data HIGHLIGHT_SEPARATOR).map Highlight.ofRaw).filter
      validb := List.mem_of_mem_filter hmem
  have h2 : validb h = true := List.of_mem_filter h1
  unfold validb at h2
  simp only [Bool.and_eq_true, bne_iff_ne] at h2
  exact h2

/-- C4, witness: the amended theorem applied to the Library built from a
single valid chunk. -/
theorem C4_no_invalid_aggregated_witness :
    (Highlight.ofRaw "A Book (An Author)\np | Added on D1234567890\nsome text").title
        ≠ ""
      ∧ (Highlight.ofRaw "A Book (An Author)\np | Added on D1234567890\nsome text").author
        ≠ "" :=
  C4_no_invalid_aggregated
    "A Book (An Author)\np | Added on D1234567890\nsome text"
    ("An Author", "A Book ")
    (Highlight.ofRaw "A Book (An Author)\np | Added on D1234567890\nsome text")
    (by decide)

/-- C5, corrected, counterexample: a chunk with exactly three
non-whitespace lines plus one whitespace-only line parses to the
all-empty record (Python's filter(None, ...) keeps the whitespace-only
line, making the line count 4), while the same chunk without the
whitespace-only line parses to a populated record — so whitespace-only
lines are NOT discarded, contradicting the claim. -/
theorem C5_counterexample :
    parse_single_highlight "A (B)\n \nx|y\nz" = ("", "", "", "", "")
      ∧ parse_single_highlight "A (B)\nx|y\nz" ≠ ("", "", "", "", "") := by
  decide

/-- C5, amended: parse discards only lines that are the empty string
(whitespace-only lines are kept and count toward the line count), and
whenever the count of remaining lines differs from 3 it returns the
all-empty record. -/
theorem C5_line_count (s : String)
    (h : (nonEmptyLines s).length ≠ 3) :
    parse_single_highlight s = ("", "", "", "", "") :=
  parse_eq_empty_of_length_ne_three s h

/-- C5, witness: the amended theorem applied to the chunk with a
whitespace-only extra line, whose retained line count is 4. -/
theorem C5_line_count_witness :
    parse_single_highlight "A (B)\n \nx|y\nz" = ("", "", "", "", "") :=
  C5_line_count "A (B)\n \nx|y\nz" (by decide)

/-- C6, corrected, counterexample: two chunks whose extracted titles
"Book " and "Book  " differ only in trailing whitespace produce TWO
distinct keys in the Library, not one: the grouping key is the exact
(author, title) pair, with no trimming. -/
theorem C6_counterexample :
    (parse_highlights "Book (A)\nx|y\nz\n==========\nBook  (A)\nx|y\nz").map
        Prod.fst
      = [("A", "Book "), ("A", "Book  ")] := by
  decide

/-- C6, amended: two valid entries aggregate under the same BookKey if
and only if their (author, title) pairs are EXACTLY equal — no trimming,
no fuzzy matching, no case-folding; entries whose titles differ only in
surrounding whitespace belong to different books. -/
theorem C6_exact_key_equality (data : String) (h1 h2 : Highlight)
    (hm1 : h1 ∈ validRecords data) (hm2 : h2 ∈ validRecords data) :
    (∃ key, h1 ∈ lookupList key (parse_highlights data)
        ∧ h2 ∈ lookupList key (parse_highlights data))
      ↔ (h1.author, h1.title) = (h2.author, h2.title) := by
  have hlook : ∀ key : String × String, lookupList key (parse_highlights data)
      = (validRecords data).filter (fun h => decide (keyOf h = key)) := by
    intro key
    unfold parse_highlights validRecords
    rw [lookupList_foldl]
    simp [lookupList]
  constructor
  · rintro ⟨key, hk1, hk2⟩
    rw [hlook] at hk1 hk2
    have e1 : keyOf h1 = key := of_decide_eq_true (List.mem_filter.mp hk1).2
    have e2 : keyOf h2 = key := of_decide_eq_true (List.mem_filter.mp hk2).2
    exact e1.trans e2.symm
  · intro he
    refine ⟨keyOf h1, ?_, ?_⟩
    · rw [hlook]
      exact List.mem_filter.mpr ⟨hm1, decide_eq_true rfl⟩
    · rw [hlook]
      refine List.mem_filter.mpr ⟨hm2, decide_eq_true ?_⟩
      show keyOf h2 = keyOf h1
      exact he.symm

/-- C6, witness: the amended theorem applied to two chunks carrying the
same (author, title) pair. -/
theorem C6_exact_key_equality_witness :
    (∃ key,
        Highlight.ofRaw "T (A)\nx|y\nz\n"
            ∈ lookupList key
              (parse_highlights "T (A)\nx|y\nz\n==========\nT (A)\nx|y\nz")
          ∧ Highlight.ofRaw "\nT (A)\nx|y\nz"
            ∈ lookupList key
              (parse_highlights "T (A)\nx|y\nz\n==========\nT (A)\nx|y\nz"))
      ↔ ((Highlight.ofRaw "T (A)\nx|y\nz\n").author,
            (Highlight.ofRaw "T (A)\nx|y\nz\n").title)
        = ((Highlight.ofRaw "\nT (A)\nx|y\nz").author,
            (Highlight.ofRaw "\nT (A)\nx|y\nz").title) :=
  C6_exact_key_equality "T (A)\nx|y\nz\n==========\nT (A)\nx|y\nz"
    (Highlight.ofRaw "T (A)\nx|y\nz\n") (Highlight.ofRaw "\nT (A)\nx|y\nz")
    (by decide) (by decide)

/-- C7, confirmed: aggregation preserves order.  For every input text,
the Library's keys are exactly the keys of the valid records in
first-seen order, and for every key the stored record sequence is
exactly the subsequence of valid records carrying that key, in input
(chunk-position) order. -/
theorem C7_order_preservation (data : String) (key : String × String) :
    (parse_highlights data).map Prod.fst
        = firstSeenKeys ((validRecords data).map keyOf)
      ∧ lookupList key (parse_highlights data)
        = (validRecords data).filter (fun h => decide (keyOf h = key)) := by
  constructor
  · unfold parse_highlights validRecords
    rw [map_fst_foldl]
    simp
  · unfold parse_highlights validRecords
    rw [lookupList_foldl]
    simp [lookupList]

/-- C8, confirmed: for every record and flag combination the formatted
line is the style prefix (bullet gives "> ", quote gives "- ", paragraph
gives nothing), then the passage with each internal newline replaced by
a single space, then exactly one flag-selected suffix (both flags give
" (Added on <date>, <page>)", date only " (Added on <date>)", page only
" (<page>)", neither nothing), then a single line terminator — where
<date> and <page> are the record's date and page attributes as
format_highlight reads them. -/
theorem C8_format_structure (fmt : Formatting) (h : Highlight)
    (add_date add_page : Bool) :
    fmt.format_highlight h add_date add_page
      = stylePrefix fmt ++ h.content.replace "\n" " "
          ++ flagSuffix h add_date add_page ++ "\n" := by
  cases fmt <;> cases add_date <;> cases add_page <;>
    simp [Formatting.format_highlight, stylePrefix, flagSuffix,
      string_append_assoc, string_empty_append, string_append_empty]

/-- C9, corrected, counterexample: ten equals signs embedded INSIDE the
passage line of an otherwise well-formed chunk do act as a chunk
boundary: the aggregated Library stores the passage truncated to "foo"
(the text before the embedded separator), not the full passage
"foo==========bar" that a line-based split would preserve. -/
theorem C9_counterexample :
    (parse_highlights "T (A)\nm|Added on 0123456789X\nfoo==========bar").map
        (fun e => (e.1, e.2.map Highlight.content))
      = [(("A", "T "), ["foo"])] := by
  decide

/-- C9, amended: aggregation splits the input at every occurrence of the
ten-equals SUBSTRING, scanning left to right, regardless of whether the
occurrence forms a whole line: whenever the leftmost occurrence of the
separator in a ++ HIGHLIGHT_SEPARATOR ++ b is the displayed one, the
split peels off a as the first chunk and continues on b, and
parse_highlights folds over exactly these chunks. -/
theorem C9_substring_split (a b : String)
    (hfind : pyFind (a ++ HIGHLIGHT_SEPARATOR ++ b) HIGHLIGHT_SEPARATOR
      = (a.length : Int)) :
    pySplit (a ++ HIGHLIGHT_SEPARATOR ++ b) HIGHLIGHT_SEPARATOR
        = a :: pySplit b HIGHLIGHT_SEPARATOR
      ∧ parse_highlights (a ++ HIGHLIGHT_SEPARATOR ++ b)
        = (a :: pySplit b HIGHLIGHT_SEPARATOR).foldl addHighlight [] := by
  have hsp := pySplit_append HIGHLIGHT_SEPARATOR a b (by decide) hfind
  refine ⟨hsp, ?_⟩
  unfold parse_highlights
  rw [hsp]

/-- C9, witness: the amended theorem applied to the text
"x==========y", where the separator occurrence sits inside a line. -/
theorem C9_substring_split_witness :
    pySplit ("x" ++ HIGHLIGHT_SEPARATOR ++ "y") HIGHLIGHT_SEPARATOR
        = "x" :: pySplit "y" HIGHLIGHT_SEPARATOR
      ∧ parse_highlights ("x" ++ HIGHLIGHT_SEPARATOR ++ "y")
        = ("x" :: pySplit "y" HIGHLIGHT_SEPARATOR).foldl addHighlight [] :=
  C9_substring_split "x" "y" (by decide)

/-- C10, corrected, counterexample: a three-line chunk with a
parenthesized group and a short metadata line can still have an EMPTY
title (group at the start of the header), so it is not aggregated —
contradicting the claim that every such chunk yields a record with
non-empty title and author. -/
theorem C10_counterexample :
    parse_single_highlight "(A)\nx\ny" = ("", "A", "y", "P", "") := by
  decide

/-- C10, amended: for every chunk with exactly three non-empty lines
and a parenthesized group in the header, if the metadata line's last
pipe-segment has at most 10 characters then the returned record's
timestamp component is the empty string, while the title and author
components are still the usual extracted values — a short last segment
never by itself invalidates the record, so the record is aggregated
exactly when those extracted title and author are non-empty. -/
theorem C10_short_last_segment (s a d c : String) (i : Nat) (g : List Char)
    (hl : nonEmptyLines s = [a, d, c])
    (hm : reSearchParen a.toList 0 = some (i, g))
    (hshort : ((pySplit d "|").getLastD "").length ≤ 10) :
    (parse_single_highlight s).2.2.2.2 = ""
      ∧ (parse_single_highlight s).1 = pyTake a i
      ∧ (parse_single_highlight s).2.1 = String.mk g := by
  rw [parse_eq_of_lines s a d c hl, hm]
  refine ⟨?_, rfl, rfl⟩
  show pyDrop ((pySplit d "|").getLastD "") 10 = ""
  exact pyDrop_eq_empty _ _ hshort

/-- C10, witness: the amended theorem applied to a chunk whose last
pipe-segment "short" has 5 characters: the timestamp is empty and the
title and author are extracted as usual. -/
theorem C10_short_last_segment_witness :
    (parse_single_highlight "Sample Book (Jane Doe)\nmeta|short\ntext").2.2.2.2
        = ""
      ∧ (parse_single_highlight "Sample Book (Jane Doe)\nmeta|short\ntext").1
        = pyTake "Sample Book (Jane Doe)" 12
      ∧ (parse_single_highlight "Sample Book (Jane Doe)\nmeta|short\ntext").2.1
        = String.mk ("Jane Doe".toList) :=
  C10_short_last_segment "Sample Book (Jane Doe)\nmeta|short\ntext"
    "Sample Book (Jane Doe)" "meta|short" "text" 12 ("Jane Doe".toList)
    (by decide) (by decide) (by decide)
